import Mathlib

/-!
Verification development for the inhouse bot's queue & matchmaking engine
(`inhouse_bot/cogs/queue_cog.py`).

The shallow embedding below translates the queue cog's operations into Lean:
per-channel per-role queues become a function `ChannelQueues`, the games table
becomes a `List Game`, and each command handler becomes a pure state
transformer.  Python sets are modelled as duplicate-free lists (insertion is a
no-op on a member, removal erases the member), and Python floats are modelled
as rationals (the comparison structure of the code is preserved exactly).

The sqlite model classes (`Game`, `GameParticipant`, `PlayerRating`) and the
win-probability helper `trueskill_blue_side_winrate` live outside the files at
hand; their records and signatures are modelled from the spec (section 3 and
section 4.1) and are marked as such.  Everything else is translated directly
from `queue_cog.py`.
-/

/-- Modelled from the spec: the five fixed roles a player queues for
(also listed in `QueueCog.queue`'s docstring: top, jungle, mid, bot, support). -/
inductive Role where
  | top
  | jungle
  | mid
  | bot
  | support
deriving DecidableEq, Repr

/-- Translated from `roles_list` (imported from `sqlite_utils`): the fixed list
of the five roles, in the order the cog iterates over them. -/
def roles_list : List Role := [.top, .jungle, .mid, .bot, .support]

/-- Modelled from the spec: a game's team, blue or red. -/
inductive Team where
  | blue
  | red
deriving DecidableEq, Repr

/-- Modelled from the spec: a `GameParticipant` row — one (game, player) pair
carrying the player's team and role.  Players are identified by their discord
id (a natural number), as the cog's queries filter on `player_id`. -/
structure GameParticipant where
  player_id : Nat
  team : Team
  role : Role
deriving DecidableEq, Repr

/-- Modelled from the spec: a `Game` row — identity, creation timestamp
(modelled as a natural number, only its ordering matters), the optional
recorded winner, and the participant rows. -/
structure Game where
  id : Nat
  date : Nat
  winner : Option Team
  participants : List GameParticipant
deriving DecidableEq, Repr

/-- Modelled from the spec: a `PlayerRating` row — (player, role) with a
Gaussian skill estimate (mean `mu`, uncertainty `sigma`). -/
structure PlayerRating where
  player_id : Nat
  role : Role
  mu : ℚ
  sigma : ℚ
deriving DecidableEq, Repr

/-- The in-memory queue state `self.channel_queues`: a per-channel, per-role
set of waiting players.  The Python `defaultdict` maps every absent channel to
empty role sets, so the state is total over channel ids; sets are modelled as
duplicate-free lists. -/
abbrev ChannelQueues := Nat → Role → List Nat

/-- Translated from `self.channel_queues[ctx.channel.id][role].add(player)`:
set insertion, a no-op when the player is already in the role's set. -/
def queue_add (q : ChannelQueues) (ch : Nat) (r : Role) (p : Nat) : ChannelQueues :=
  fun ch' r' =>
    if ch' = ch ∧ r' = r then
      (if p ∈ q ch r then q ch r else q ch r ++ [p])
    else q ch' r'

/-- Translated from `self.channel_queues[channel_id][role].discard(player)`:
set removal, a no-op when the player is absent. -/
def queue_discard (q : ChannelQueues) (ch : Nat) (r : Role) (p : Nat) : ChannelQueues :=
  fun ch' r' =>
    if ch' = ch ∧ r' = r then (q ch r).erase p
    else q ch' r'

/-- Translated from the inner loop of `QueueCog.leave_queue`: discard the
player from every role set of one channel (the channel dict always holds
exactly the five roles, from the defaultdict initializer). -/
def leave_channel (q : ChannelQueues) (ch : Nat) (p : Nat) : ChannelQueues :=
  roles_list.foldl (fun acc r => queue_discard acc ch r p) q

/-- Translated from `QueueCog.leave_queue`: with no arguments, the loop runs
over `[ctx.channel.id]` only; with any non-empty argument tuple (`args` is
truthy), it runs over every channel of `self.channel_queues`.  A channel
absent from the defaultdict has empty role sets, on which discarding is a
no-op, so iterating over the dict's keys coincides with iterating over all
channel ids. -/
def leave_queue (q : ChannelQueues) (current : Nat) (args : List String) (p : Nat) :
    ChannelQueues :=
  if args.isEmpty then leave_channel q current p
  else fun ch r => (q ch r).erase p

/-- Translated from `QueueCog.get_last`: the (game, participant) rows of the
player, ordered by `Game.date` descending, first row.  The descending sort is
stable, so among equal dates the earliest-stored row wins; the fold below
keeps the current best unless a strictly later game appears. -/
def get_last (db : List Game) (p : Nat) : Option (Game × GameParticipant) :=
  db.foldl
    (fun acc g =>
      match g.participants.find? (fun gp => gp.player_id == p) with
      | none => acc
      | some gp =>
        match acc with
        | none => some (g, gp)
        | some (g0, gp0) => if g0.date < g.date then some (g, gp) else some (g0, gp0))
    none

/-- Outcome of the admission check at the top of `QueueCog.queue`. -/
inductive JoinResult where
  | alreadyInGame
  | admitted
deriving DecidableEq, Repr

/-- Translated from the first block of `QueueCog.queue`: fetch the player's
last game; if it exists and has no winner, refuse (the `AlreadyInGame`
outcome, worded as "Your last game is still ongoing"); if `get_last` returned
`None` (a `TypeError` on unpacking, caught), or the last game has a winner,
admit. -/
def queue_guard (db : List Game) (p : Nat) : JoinResult :=
  match get_last db p with
  | none => .admitted
  | some (g, _) => if g.winner = none then .alreadyInGame else .admitted

/-- Translated from the queue-mutation part of `QueueCog.queue`: when the
guard refuses, the handler returns before touching any queue; when it admits,
the player is added to each requested role's set in the current channel. -/
def queue_cmd (db : List Game) (q : ChannelQueues) (ch : Nat) (p : Nat)
    (roles : List Role) : ChannelQueues :=
  match queue_guard db p with
  | .alreadyInGame => q
  | .admitted => roles.foldl (fun acc r => queue_add acc ch r p) q

/-- Translated from `QueueCog.score_game`'s winner assignment:
`game.winner = 'blue' if game_participant.team == 'blue' and result else 'red'`. -/
def score_game_winner (team : Team) (result : Bool) : Team :=
  if team = Team.blue ∧ result then Team.blue else Team.red

/-- Modelled from the spec, for comparison with `score_game_winner`:
`reportResult` computes `winner = player's team if claimedWin else opposing
team`. -/
def reportResult_spec_winner (team : Team) (claimedWin : Bool) : Team :=
  if claimedWin then team
  else match team with
    | .blue => .red
    | .red => .blue

/-- Outcome of `QueueCog.score_game` as observed by its caller. -/
inductive ScoreOutcome where
  | typeError
  | scored (db : List Game)
deriving DecidableEq, Repr

/-- Translated from `QueueCog.score_game`: unpack `get_last(player)` — when it
returns `None` the unpacking raises an uncaught `TypeError` (there is no
`try`/`except` here, unlike in `queue`); otherwise set the last game's winner
from the participant's team and the reported result.  The conflict branch only
emits chat messages, and `update_trueskill` mutates nothing, so the database
update is the winner assignment alone. -/
def score_game (db : List Game) (p : Nat) (result : Bool) : ScoreOutcome :=
  match get_last db p with
  | none => .typeError
  | some (g, gp) =>
    .scored (db.map fun g' =>
      if g'.id = g.id then { g' with winner := some (score_game_winner gp.team result) }
      else g')

/-- Translated from `QueueCog.update_trueskill`: the body is `pass` (a bare
TODO), so the player ratings are returned unchanged whatever the game. -/
def update_trueskill (ratings : List PlayerRating) (g : Game) : List PlayerRating :=
  ratings

/-- Translated from `QueueCog.remove_players_from_queue`: the body is `pass`
(a bare TODO), so every queue is left unchanged whatever the player list. -/
def remove_players_from_queue (q : ChannelQueues) (players : List Nat) : ChannelQueues :=
  q

/-- Translated from the end of `QueueCog.start_game`: `game_start` is the
literal `False` (reaction handling is a TODO), so the removal branch never
runs and the queue state is returned untouched. -/
def start_game (q : ChannelQueues) (players : List Nat) : ChannelQueues :=
  let game_start := false
  if game_start then remove_players_from_queue q players else q

/-- Translated from `QueueCog.cancel_game`: `query(...).one()` raises when no
game has the id (modelled as `none`); otherwise the game row is deleted
unconditionally — no check of `winner` or of any lifecycle state. -/
def cancel_game (db : List Game) (game_id : Nat) : Option (List Game) :=
  if db.any (fun g => g.id == game_id) then
    some (db.filter fun g => ¬ g.id = game_id)
  else none

/-- Translated from Python's builtin `abs` on the score arithmetic: the
absolute value of a rational, written out so that it evaluates by kernel
reduction. -/
def rat_abs (x : ℚ) : ℚ :=
  if x < 0 then -x else x

/-- Translated from `itertools.permutations(s, 2)`: every ordered pair of
elements taken at two distinct positions, outer index varying slowest. -/
def perms2 (l : List Nat) : List (Nat × Nat) :=
  (l.enum).flatMap fun ia =>
    (l.enum).filterMap fun jb =>
      if ia.1 ≠ jb.1 then some (ia.2, jb.2) else none

/-- Translated from `itertools.product(*role_permutations)`: all choices of
one element per list, leftmost list varying slowest. -/
def cartesian : List (List (Nat × Nat)) → List (List (Nat × Nat))
  | [] => [[]]
  | l :: ls => l.flatMap fun x => (cartesian ls).map (x :: ·)

/-- The ten players of a team composition: a composition is the per-role list
of (blue player, red player) pairs, aligned with `roles_list`, and its player
list is `players.values()` in the code. -/
def comp_players (c : List (Nat × Nat)) : List Nat :=
  c.flatMap fun pr => [pr.1, pr.2]

/-- Translated from `QueueCog.match_game`.  The channel's queue snapshot is a
per-role player set (as an enumeration-ordered duplicate-free list).  The win
probability `trueskill_blue_side_winrate` lives outside the files at hand, so
it is passed as a parameter `wr` (modelled from the spec: an arbitrary
win-probability estimate for a composition); every theorem below holds for
all `wr`.  Structure, faithful to the code: when some role has fewer than two
waiting players, return no composition and score `-1`; otherwise enumerate
the Cartesian product of the per-role ordered pairs, skip compositions whose
ten slots do not hold ten distinct players (`set(players.values()) != 10`),
score the rest by `-abs(0.5 - winrate)`, and keep the strictly best, starting
from the empty composition and score `-1`.  The code's two no-composition
returns (`None` and the never-reassigned `{}`) are both the empty list here. -/
def match_game (wr : List (Nat × Nat) → ℚ) (q : Role → List Nat) :
    List (Nat × Nat) × ℚ :=
  if roles_list.all (fun r => 2 ≤ (q r).length) then
    let role_permutations := roles_list.map fun r => perms2 (q r)
    (cartesian role_permutations).foldl
      (fun best comp =>
        if (comp_players comp).dedup.length = 10 then
          let score := -(rat_abs (1/2 - wr comp))
          if best.2 < score then (comp, score) else best
        else best)
      ([], -1)
  else ([], -1)

/-- What the tail of `QueueCog.queue` does with the best score. -/
inductive ProposalOutcome where
  | proposed (mismatch : Bool)
  | noProposal
deriving DecidableEq, Repr

/-- Translated from the end of `QueueCog.queue`:
`if match_quality > -0.1: start_game(...)`,
`elif match_quality > -0.2: start_game(..., mismatch=True)`, else nothing. -/
def queue_dispatch (match_quality : ℚ) : ProposalOutcome :=
  if -1/10 < match_quality then .proposed false
  else if -1/5 < match_quality then .proposed true
  else .noProposal

/-- Sample win-probability estimate used to exercise `match_game` on concrete
queues: every composition is judged perfectly balanced. -/
def wr0 : List (Nat × Nat) → ℚ := fun _ => 1/2

/-- Sample queue snapshot: two waiting players per role, ten distinct players
overall. -/
def q0 : Role → List Nat := fun r =>
  match r with
  | .top => [0, 1]
  | .jungle => [2, 3]
  | .mid => [4, 5]
  | .bot => [6, 7]
  | .support => [8, 9]

/-- Ten participant rows for a full game: players 0–4 on blue, 5–9 on red,
one per role on each team. -/
def ten_participants : List GameParticipant :=
  [⟨0, .blue, .top⟩, ⟨1, .blue, .jungle⟩, ⟨2, .blue, .mid⟩,
   ⟨3, .blue, .bot⟩, ⟨4, .blue, .support⟩,
   ⟨5, .red, .top⟩, ⟨6, .red, .jungle⟩, ⟨7, .red, .mid⟩,
   ⟨8, .red, .bot⟩, ⟨9, .red, .support⟩]

/-- Sample games table in which player 5 has an old unresolved game (id 1,
no winner) and a later resolved one (id 2, blue recorded): the same ten
players met twice and only the second meeting was scored. -/
def dbOldUnresolved : List Game :=
  [{ id := 1, date := 10, winner := none, participants := ten_participants },
   { id := 2, date := 20, winner := some .blue, participants := ten_participants }]

/-- Sample completed game: the winner is recorded. -/
def completedGame : Game :=
  { id := 7, date := 1, winner := some .blue, participants := ten_participants }

/-- Folding a step function that preserves an invariant `P`, over a list whose
elements all satisfy `Q`, preserves `P`. -/
theorem foldl_preserves {α β : Type} {P : β → Prop} {Q : α → Prop} (f : β → α → β)
    (hf : ∀ b a, P b → Q a → P (f b a)) :
    ∀ (l : List α) (b : β), P b → (∀ a ∈ l, Q a) → P (l.foldl f b) := by
  intro l
  induction l with
  | nil => intro b hb _; exact hb
  | cons x xs ih =>
    intro b hb hq
    exact ih (f b x) (hf b x hb (hq x (List.mem_cons_self x xs)))
      fun a ha => hq a (List.mem_cons_of_mem x ha)

/-- Every member of a Cartesian product of lists has one entry per factor. -/
theorem cartesian_length :
    ∀ (ls : List (List (Nat × Nat))) (c : List (Nat × Nat)),
      c ∈ cartesian ls → c.length = ls.length := by
  intro ls
  induction ls with
  | nil =>
    intro c hc
    simp [cartesian] at hc
    simp [hc]
  | cons l ls ih =>
    intro c hc
    simp only [cartesian, List.mem_flatMap, List.mem_map] at hc
    obtain ⟨x, _, rest, hrest, rfl⟩ := hc
    simp [ih rest hrest]

/-- A composition of `n` per-role pairs yields `2 * n` player slots. -/
theorem comp_players_length (c : List (Nat × Nat)) :
    (comp_players c).length = 2 * c.length := by
  induction c with
  | nil => rfl
  | cons pr c ih =>
    simp only [comp_players, List.flatMap_cons] at ih ⊢
    simp only [List.length_append, List.length_cons, List.length_nil, ih]
    omega

/-- A list whose deduplication loses no element has no duplicates. -/
theorem nodup_of_dedup_length {l : List Nat} (h : l.dedup.length = l.length) :
    l.Nodup := by
  have hs := List.dedup_sublist l
  have heq := hs.eq_of_length h
  rw [← heq]
  exact List.nodup_dedup l

/-- The pair returned by `get_last` really is a row of the player: the game is
in the table and the participant row belongs to that game and to the player. -/
theorem get_last_mem (db : List Game) (p : Nat) (g : Game) (gp : GameParticipant)
    (h : get_last db p = some (g, gp)) :
    g ∈ db ∧ gp ∈ g.participants ∧ gp.player_id = p := by
  unfold get_last at h
  refine foldl_preserves
    (P := fun acc : Option (Game × GameParticipant) =>
      ∀ g' gp', acc = some (g', gp') → g' ∈ db ∧ gp' ∈ g'.participants ∧ gp'.player_id = p)
    (Q := fun a : Game => a ∈ db) _ ?_ db none (by intro g' gp' h'; cases h')
    (fun a ha => ha) g gp h
  intro b a hb ha
  dsimp only
  cases hfind : a.participants.find? (fun gp' => gp'.player_id == p) with
  | none => exact hb
  | some gpa =>
    have hmem := List.mem_of_find?_eq_some hfind
    have hpred := List.find?_some hfind
    have hid : gpa.player_id = p := by
      simpa using hpred
    cases b with
    | none =>
      intro g' gp' h'
      cases h'
      exact ⟨ha, hmem, hid⟩
    | some b0 =>
      obtain ⟨g0, gp0⟩ := b0
      intro g' gp' h'
      dsimp only at h'
      split at h'
      · cases h'
        exact ⟨ha, hmem, hid⟩
      · exact hb g' gp' h'

/-- Pointwise view of `queue_add`. -/
theorem queue_add_apply (q : ChannelQueues) (ch : Nat) (r : Role) (p : Nat)
    (ch' : Nat) (r' : Role) :
    queue_add q ch r p ch' r' =
      if ch' = ch ∧ r' = r then (if p ∈ q ch r then q ch r else q ch r ++ [p])
      else q ch' r' := rfl

/-- Adding the same player to the same role set twice is the same as adding
once: set insertion is idempotent. -/
theorem queue_add_idem (q : ChannelQueues) (ch : Nat) (r : Role) (p : Nat) :
    queue_add (queue_add q ch r p) ch r p = queue_add q ch r p := by
  funext ch' r'
  rw [queue_add_apply (queue_add q ch r p) ch r p ch' r', queue_add_apply q ch r p ch' r']
  by_cases hc : ch' = ch ∧ r' = r
  · rw [if_pos hc, if_pos hc, queue_add_apply,
      if_pos (show ch = ch ∧ r = r from ⟨rfl, rfl⟩)]
    by_cases hp : p ∈ q ch r
    · rw [if_pos hp, if_pos hp]
    · rw [if_neg hp, if_pos (List.mem_append_right _ (by simp))]
  · simp only [queue_add_apply, if_neg hc]

/-- Pointwise view of `queue_discard`. -/
theorem queue_discard_apply (q : ChannelQueues) (ch : Nat) (r : Role) (p : Nat)
    (ch' : Nat) (r' : Role) :
    queue_discard q ch r p ch' r' =
      if ch' = ch ∧ r' = r then (q ch r).erase p else q ch' r' := rfl

/-- Pointwise view of `leave_channel`: the player is erased from every role
set of the targeted channel and nothing else changes. -/
theorem leave_channel_apply (q : ChannelQueues) (ch : Nat) (p : Nat)
    (ch' : Nat) (r' : Role) :
    leave_channel q ch p ch' r' = if ch' = ch then (q ch' r').erase p else q ch' r' := by
  unfold leave_channel roles_list
  simp only [List.foldl_cons, List.foldl_nil]
  by_cases hc : ch' = ch
  · subst hc
    cases r' <;> simp [queue_discard_apply]
  · cases r' <;> simp [queue_discard_apply, hc]

/-- Claim C1: the winner recorded by `score_game` for a red-team player
reporting a loss.  The code's boolean `'blue' if team == 'blue' and result
else 'red'` records red as the winner, while the spec's rule (winner is the
player's own team on a claimed win, the opposing team on a claimed loss)
requires blue: the two formulas disagree exactly at (red, loss). -/
theorem score_game_red_loss_records_red :
    score_game_winner Team.red false = Team.red
    ∧ reportResult_spec_winner Team.red false = Team.blue :=
  ⟨rfl, rfl⟩

/-- Claim C2: `update_trueskill` is a bare stub — after any result report the
stored ratings are whatever they were before, for every rating list and every
game, so no replayed rating update is ever applied. -/
theorem update_trueskill_is_noop (ratings : List PlayerRating) (g : Game) :
    update_trueskill ratings g = ratings := rfl

/-- Claim C3: whenever `match_game` returns a composition (a non-empty slot
assignment), its ten player slots hold ten pairwise-distinct players, for
every win-probability estimate and every queue snapshot. -/
theorem match_game_returns_ten_distinct_players (wr : List (Nat × Nat) → ℚ)
    (q : Role → List Nat) (h : (match_game wr q).1 ≠ []) :
    (comp_players (match_game wr q).1).Nodup
    ∧ (comp_players (match_game wr q).1).length = 10 := by
  have key : (match_game wr q).1 = [] ∨
      ((comp_players (match_game wr q).1).dedup.length = 10
        ∧ (match_game wr q).1.length = 5) := by
    unfold match_game
    split
    · dsimp only
      refine foldl_preserves
        (P := fun best : List (Nat × Nat) × ℚ =>
          best.1 = [] ∨ ((comp_players best.1).dedup.length = 10 ∧ best.1.length = 5))
        (Q := fun c : List (Nat × Nat) => c.length = 5) _ ?_ _ _ (Or.inl rfl) ?_
      · intro b a hb ha
        dsimp only
        split
        · split
          · exact Or.inr ⟨by assumption, ha⟩
          · exact hb
        · exact hb
      · intro c hc
        have hlen := cartesian_length _ c hc
        simpa [roles_list] using hlen
    · exact Or.inl rfl
  rcases key with hk | ⟨hd, hl⟩
  · exact absurd hk h
  · have hlen : (comp_players (match_game wr q).1).length = 10 := by
      rw [comp_players_length, hl]
    exact ⟨nodup_of_dedup_length (by rw [hd, hlen]), hlen⟩

set_option maxRecDepth 10000 in
/-- Witness for claim C3: on a queue with two waiting players per role and a
balanced win-probability estimate, `match_game` returns a composition, and
the theorem yields its distinctness. -/
theorem match_game_returns_ten_distinct_players_witness :
    (comp_players (match_game wr0 q0).1).Nodup
    ∧ (comp_players (match_game wr0 q0).1).length = 10 :=
  match_game_returns_ten_distinct_players wr0 q0 (by
    simp +decide [match_game, wr0, q0, roles_list, perms2, cartesian, comp_players, rat_abs])

/-- Claim C4: the acceptance thresholds of the queue command.  A best score
above −1/10 is proposed without the mismatch flag, a best score in
(−1/5, −1/10] is proposed with the flag, a best score at or below −1/5 is not
proposed; the boundary scores −1/10 and −1/5 land in the flagged and the
no-proposal branch respectively. -/
theorem queue_dispatch_thresholds (s : ℚ) :
    (-1/10 < s → queue_dispatch s = .proposed false)
    ∧ (-1/5 < s → s ≤ -1/10 → queue_dispatch s = .proposed true)
    ∧ (s ≤ -1/5 → queue_dispatch s = .noProposal)
    ∧ queue_dispatch (-1/10) = .proposed true
    ∧ queue_dispatch (-1/5) = .noProposal := by
  unfold queue_dispatch
  refine ⟨fun h => ?_, fun h1 h2 => ?_, fun h => ?_, ?_, ?_⟩
  · rw [if_pos h]
  · rw [if_neg (not_lt.mpr h2), if_pos h1]
  · rw [if_neg (not_lt.mpr (h.trans (by norm_num))), if_neg (not_lt.mpr h)]
  · rw [if_neg (lt_irrefl _), if_pos (by norm_num)]
  · rw [if_neg (by norm_num), if_neg (lt_irrefl _)]

/-- Witness for claim C4: a best score of 0 is proposed with no mismatch
flag. -/
theorem queue_dispatch_thresholds_witness :
    queue_dispatch 0 = ProposalOutcome.proposed false :=
  (queue_dispatch_thresholds 0).1 (by norm_num)

/-- Claim C5: the confirmation path removes nobody.  `start_game` never
reaches its removal branch (`game_start` is hardcoded to `False`) and
`remove_players_from_queue` is a bare stub, so after a proposal — confirmed
or not — every queue is exactly as before. -/
theorem confirm_removes_no_player_from_queue (q : ChannelQueues) (players : List Nat) :
    start_game q players = q ∧ remove_players_from_queue q players = q :=
  ⟨rfl, rfl⟩

set_option maxRecDepth 4000 in
/-- Claim C6 counterexample: player 5 has an unresolved game (id 1) in
`dbOldUnresolved`, yet the queue guard admits the player and the queue
command adds them to the requested role queue, because only the most recent
game (id 2, resolved) is inspected. -/
theorem queue_guard_ignores_older_unresolved_game :
    (∃ g ∈ dbOldUnresolved, (∃ gp ∈ g.participants, gp.player_id = 5) ∧ g.winner = none)
    ∧ queue_guard dbOldUnresolved 5 = JoinResult.admitted
    ∧ queue_cmd dbOldUnresolved (fun _ _ => []) 0 5 [Role.top] 0 Role.top = [5] := by
  refine ⟨?_, ?_, ?_⟩
  · decide
  · decide
  · decide

/-- Claim C6 (amended): the queue guard keys on the most recent game only.
In every games table, the join is refused with `AlreadyInGame` exactly when
the player's most recent game (the row `get_last` picks) exists and has no
recorded winner — a refused join changes no role queue; in particular a
player whose most recent game carries a winner is admitted even when an
older unresolved game sits behind it, and a player all of whose games are
resolved (or who has none) is admitted. -/
theorem queue_guard_blocks_if_last_unresolved (db : List Game) (p : Nat)
    (q : ChannelQueues) (ch : Nat) (roles : List Role) :
    (queue_guard db p = JoinResult.alreadyInGame ↔
      ∃ g gp, get_last db p = some (g, gp) ∧ g.winner = none)
    ∧ (queue_guard db p = JoinResult.alreadyInGame → queue_cmd db q ch p roles = q)
    ∧ (∀ g gp, get_last db p = some (g, gp) → g.winner ≠ none →
      queue_guard db p = JoinResult.admitted)
    ∧ ((∀ g ∈ db, (∃ gp ∈ g.participants, gp.player_id = p) → g.winner ≠ none) →
      queue_guard db p = JoinResult.admitted) := by
  have hadmit : ∀ g gp, get_last db p = some (g, gp) → g.winner ≠ none →
      queue_guard db p = JoinResult.admitted := by
    intro g gp hgl hw
    unfold queue_guard
    rw [hgl]
    dsimp only
    rw [if_neg hw]
  refine ⟨?_, ?_, hadmit, ?_⟩
  · constructor
    · intro hb
      unfold queue_guard at hb
      cases hgl : get_last db p with
      | none =>
        rw [hgl] at hb
        cases hb
      | some pair =>
        obtain ⟨g, gp⟩ := pair
        rw [hgl] at hb
        dsimp only at hb
        by_cases hw : g.winner = none
        · exact ⟨g, gp, rfl, hw⟩
        · rw [if_neg hw] at hb
          cases hb
    · rintro ⟨g, gp, hgl, hw⟩
      unfold queue_guard
      rw [hgl]
      dsimp only
      rw [if_pos hw]
  · intro hb
    unfold queue_cmd
    rw [hb]
  · intro hall
    unfold queue_guard
    cases hgl : get_last db p with
    | none => rfl
    | some pair =>
      obtain ⟨g, gp⟩ := pair
      obtain ⟨hg, hgp, hid⟩ := get_last_mem db p g gp hgl
      have hw : g.winner ≠ none := hall g hg ⟨gp, hgp, hid⟩
      dsimp only
      rw [if_neg hw]

set_option maxRecDepth 4000 in
/-- Witness for claim C6 (amended), exercising the only-if direction at the
interesting state: in `dbOldUnresolved` the most recent game of player 5
(id 2) carries a winner, so the player is admitted although the older game
(id 1) is unresolved. -/
theorem queue_guard_blocks_if_last_unresolved_witness :
    queue_guard dbOldUnresolved 5 = JoinResult.admitted :=
  (queue_guard_blocks_if_last_unresolved dbOldUnresolved 5 (fun _ _ => []) 0 []).2.2.1
    { id := 2, date := 20, winner := some .blue, participants := ten_participants }
    ⟨5, .red, .top⟩ (by decide) (by decide)

/-- Claim C7: a player who has never played reports a result — `score_game`
unpacks `get_last`'s `None` and dies with a `TypeError` instead of producing
a typed no-active-game outcome (no such outcome exists anywhere in the
handler). -/
theorem score_game_crashes_when_no_games :
    score_game [] 0 true = ScoreOutcome.typeError := rfl

/-- Claim C8: `cancel_game` on a completed game (winner recorded) deletes its
row instead of refusing: the handler checks no lifecycle state at all. -/
theorem cancel_game_deletes_completed_game :
    completedGame.winner = some Team.blue
    ∧ cancel_game [completedGame] 7 = some [] := by
  refine ⟨rfl, ?_⟩
  decide

/-- Claim C9: joining the same role queue in the same channel twice yields
exactly the queue state of joining once, whatever the guard decides. -/
theorem queue_join_idempotent (db : List Game) (q : ChannelQueues) (ch p : Nat)
    (r : Role) :
    queue_cmd db (queue_cmd db q ch p [r]) ch p [r] = queue_cmd db q ch p [r] := by
  unfold queue_cmd
  cases queue_guard db p with
  | alreadyInGame => rfl
  | admitted =>
    simp only [List.foldl_cons, List.foldl_nil]
    exact queue_add_idem q ch r p

/-- Claim C10: `leave_queue` with no arguments erases the player from the
current channel's role queues only, leaving every other channel untouched;
with any non-empty argument list — any token, not only `all` — it erases the
player from every channel's role queues. -/
theorem leave_queue_scope (q : ChannelQueues) (current : Nat) (args : List String)
    (p : Nat) :
    (args = [] →
      (∀ r, leave_queue q current args p current r = (q current r).erase p)
      ∧ (∀ ch, ch ≠ current → ∀ r, leave_queue q current args p ch r = q ch r))
    ∧ (args ≠ [] → ∀ ch r, leave_queue q current args p ch r = (q ch r).erase p) := by
  constructor
  · intro ha
    subst ha
    constructor
    · intro r
      show leave_channel q current p current r = _
      rw [leave_channel_apply, if_pos rfl]
    · intro ch hch r
      show leave_channel q current p ch r = _
      rw [leave_channel_apply, if_neg hch]
  · intro ha ch r
    have hne : ¬ args.isEmpty = true := by
      cases args
      · exact absurd rfl ha
      · simp
    unfold leave_queue
    rw [if_neg hne]

/-- Witness for claim C10: the argument token `x` (not the word `all`) still
clears the player from a channel other than the current one. -/
theorem leave_queue_scope_witness :
    leave_queue (fun _ _ => [5]) 0 ["x"] 5 1 Role.top = ([5] : List Nat).erase 5 :=
  (leave_queue_scope (fun _ _ => [5]) 0 ["x"] 5).2 (by simp) 1 Role.top
